import Mathlib

/-!
Verification of the design-token → theme pipeline and the user store of the
`dev_website` repository, as shallowly embedded from the TypeScript sources
(the Tailwind configuration section of `eslint.config.js` and
`src/store/userStore.ts`).

JavaScript objects (`Record<string, _>`) are embedded as association lists in
insertion order; property assignment (`obj[k] = v`) updates in place if the key
is present and appends otherwise, matching JS semantics.  Fallible operations
(file reads, `JSON.parse`) are embedded as `Option`-valued oracles.
-/

namespace DevWebsite

/-- The Variable Reference Generator `createVar` from the source:
`(...segments) => "var(--" + segments.join('-') + ")"`. -/
def createVar (segments : List String) : String :=
  "var(--" ++ String.intercalate "-" segments ++ ")"

/-- Spec-side description of joining path segments with the `-` separator,
written by direct recursion the way the spec words it. -/
def joinSeg : List String → String
  | [] => ""
  | [s] => s
  | s :: rest => s ++ "-" ++ joinSeg rest

theorem joinSeg_cons_cons (a b : String) (l : List String) :
    joinSeg (a :: b :: l) = a ++ "-" ++ joinSeg (b :: l) := rfl

theorem joinSeg_append_head (acc a : String) (l : List String) :
    joinSeg ((acc ++ "-" ++ a) :: l) = acc ++ "-" ++ joinSeg (a :: l) := by
  cases l with
  | nil => simp [joinSeg]
  | cons b bs => simp [joinSeg, String.append_assoc]

theorem intercalate_go_eq_joinSeg (l : List String) (acc : String) :
    String.intercalate.go acc "-" l = joinSeg (acc :: l) := by
  induction l generalizing acc with
  | nil => rfl
  | cons a as ih =>
      rw [String.intercalate.go, ih (acc ++ "-" ++ a), joinSeg_append_head,
        joinSeg_cons_cons]

theorem intercalate_eq_joinSeg (l : List String) :
    String.intercalate "-" l = joinSeg l := by
  cases l with
  | nil => rfl
  | cons a as => rw [String.intercalate, intercalate_go_eq_joinSeg]

theorem createVar_join (segments : List String) :
    createVar segments = "var(--" ++ joinSeg segments ++ ")" := by
  rw [createVar, intercalate_eq_joinSeg]

/-- C8: for every list of path segments, the Variable Reference Generator
returns the string "var(--" followed by the segments joined by "-" and a
closing ")"; being a total function of its argument it is pure, deterministic
and has no failure mode. -/
theorem createVar_spec (segments : List String) :
    createVar segments = "var(--" ++ joinSeg segments ++ ")" :=
  createVar_join segments

/-- JS property assignment `m[k] = v` on an object embedded as an association
list: update in place when the key exists, append otherwise. -/
def jsSet (m : List (String × String)) (k v : String) : List (String × String) :=
  if m.any (fun p => p.1 = k) then m.map (fun p => if p.1 = k then (k, v) else p)
  else m ++ [(k, v)]

/-- JS property read `m[k]` on an object embedded as an association list:
the value of the first entry carrying the key, `none` when the key is
absent (JS `undefined`). -/
def jsGet : List (String × String) → String → Option String
  | [], _ => none
  | p :: rest, k => if p.1 = k then some p.2 else jsGet rest k

/-- The Token Flattener `flattenSemanticColors` from the source: iterate the
categories of `semantic` in entry order, and inside each category iterate its
tokens, assigning `result[category ++ "-" ++ token] = createVar('color',
category, token)` into an initially empty object. -/
def flattenSemanticColors (semantic : List (String × List (String × String))) :
    List (String × String) :=
  semantic.foldl (fun result entry =>
    entry.2.foldl (fun result tokenEntry =>
      jsSet result (entry.1 ++ "-" ++ tokenEntry.1)
        (createVar ["color", entry.1, tokenEntry.1])) result) []

/-- The (key, value) pairs the Flattener assigns, in assignment order. -/
def flatEntries (semantic : List (String × List (String × String))) :
    List (String × String) :=
  semantic.flatMap (fun entry => entry.2.map (fun tokenEntry =>
    (entry.1 ++ "-" ++ tokenEntry.1, createVar ["color", entry.1, tokenEntry.1])))

/-- The composite keys `category ++ "-" ++ token` of all (category, token)
pairs of a `semantic.color` input, in iteration order. -/
def compositeKeys (semantic : List (String × List (String × String))) :
    List String :=
  semantic.flatMap (fun entry => entry.2.map (fun tokenEntry =>
    entry.1 ++ "-" ++ tokenEntry.1))

/-- Total number of (category, token) pairs across all categories. -/
def totalPairs (semantic : List (String × List (String × String))) : Nat :=
  (semantic.map (fun entry => entry.2.length)).sum

theorem compositeKeys_eq_map_fst (semantic : List (String × List (String × String))) :
    compositeKeys semantic = (flatEntries semantic).map Prod.fst := by
  unfold compositeKeys flatEntries
  rw [List.map_flatMap]
  congr 1
  funext entry
  rw [List.map_map]
  rfl

theorem length_flatEntries (semantic : List (String × List (String × String))) :
    (flatEntries semantic).length = totalPairs semantic := by
  induction semantic with
  | nil => rfl
  | cons e rest ih =>
      simp [flatEntries, totalPairs, List.flatMap_cons] at *
      simp [ih]

/-- One fold step of the Flattener. -/
def setStep (result : List (String × String)) (p : String × String) :
    List (String × String) :=
  jsSet result p.1 p.2

theorem flatten_eq_foldl_flatEntries
    (semantic : List (String × List (String × String))) :
    flattenSemanticColors semantic = (flatEntries semantic).foldl setStep [] := by
  suffices h : ∀ init : List (String × String),
      semantic.foldl (fun result entry =>
        entry.2.foldl (fun result tokenEntry =>
          jsSet result (entry.1 ++ "-" ++ tokenEntry.1)
            (createVar ["color", entry.1, tokenEntry.1])) result) init
      = (flatEntries semantic).foldl setStep init from h []
  induction semantic with
  | nil => intro init; rfl
  | cons e rest ih =>
      intro init
      rw [List.foldl_cons, ih]
      have hsplit : flatEntries (e :: rest)
          = e.2.map (fun tokenEntry =>
              (e.1 ++ "-" ++ tokenEntry.1, createVar ["color", e.1, tokenEntry.1]))
            ++ flatEntries rest := rfl
      rw [hsplit, List.foldl_append]
      congr 1
      rw [List.foldl_map]
      rfl

theorem keys_jsSet (m : List (String × String)) (k v : String) :
    (jsSet m k v).map Prod.fst
      = if k ∈ m.map Prod.fst then m.map Prod.fst else m.map Prod.fst ++ [k] := by
  have hany : (m.any (fun p => p.1 = k)) = true ↔ k ∈ m.map Prod.fst := by
    simp [List.any_eq_true, List.mem_map]
  by_cases hk : k ∈ m.map Prod.fst
  · rw [if_pos hk, jsSet, if_pos (hany.mpr hk), List.map_map]
    have : (Prod.fst ∘ fun p : String × String => if p.1 = k then (k, v) else p)
        = Prod.fst := by
      funext p
      by_cases hp : p.1 = k <;> simp [Function.comp, hp]
    rw [this]
  · rw [if_neg hk, jsSet, if_neg (fun hc => hk (hany.mp hc)), List.map_append]
    rfl

theorem keys_foldl_setStep (entries : List (String × String))
    (m : List (String × String)) (k : String) :
    k ∈ (entries.foldl setStep m).map Prod.fst
      ↔ k ∈ m.map Prod.fst ∨ k ∈ entries.map Prod.fst := by
  induction entries generalizing m with
  | nil => simp
  | cons e rest ih =>
      rw [List.foldl_cons, ih]
      rw [show setStep m e = jsSet m e.1 e.2 from rfl]
      rw [keys_jsSet]
      simp only [List.map_cons, List.mem_cons]
      by_cases he : e.1 ∈ m.map Prod.fst
      · rw [if_pos he]
        constructor
        · rintro (h | h)
          · exact Or.inl h
          · exact Or.inr (Or.inr h)
        · rintro (h | h | h)
          · exact Or.inl h
          · exact Or.inl (h ▸ he)
          · exact Or.inr h
      · rw [if_neg he]
        simp only [List.mem_append, List.mem_singleton]
        tauto

theorem any_key_eq (m : List (String × String)) (k : String) :
    (m.any (fun p => p.1 = k)) = true ↔ k ∈ m.map Prod.fst := by
  simp [List.any_eq_true, List.mem_map]

theorem jsSet_append (m : List (String × String)) (k v : String)
    (hk : k ∉ m.map Prod.fst) : jsSet m k v = m ++ [(k, v)] := by
  rw [jsSet, if_neg]
  intro hc
  exact hk ((any_key_eq m k).mp hc)

/-- Every value the Flattener ever writes is the variable reference
"var(--color-" followed by the composite key and ")". -/
def valOf (k : String) : String := "var(--color-" ++ k ++ ")"

theorem joinSeg_triple (a b c : String) :
    joinSeg [a, b, c] = a ++ "-" ++ (b ++ "-" ++ c) := rfl

theorem createVar_color_pair (c t : String) :
    createVar ["color", c, t] = valOf (c ++ "-" ++ t) := by
  rw [createVar_join, joinSeg_triple, valOf]
  simp only [← String.append_assoc]
  rfl

theorem snd_eq_valOf_jsSet (m : List (String × String)) (k v : String)
    (hm : ∀ p ∈ m, p.2 = valOf p.1) (hv : v = valOf k) :
    ∀ p ∈ jsSet m k v, p.2 = valOf p.1 := by
  intro p hp
  rw [jsSet] at hp
  split at hp
  · rcases List.mem_map.mp hp with ⟨q, hq, rfl⟩
    by_cases hq1 : q.1 = k
    · simp only [if_pos hq1]
      exact hv
    · simp only [if_neg hq1]
      exact hm q hq
  · rcases List.mem_append.mp hp with h | h
    · exact hm p h
    · rcases List.mem_singleton.mp h with rfl
      simpa using hv

theorem foldl_setStep_snd (entries m : List (String × String))
    (hm : ∀ p ∈ m, p.2 = valOf p.1) (he : ∀ p ∈ entries, p.2 = valOf p.1) :
    ∀ p ∈ entries.foldl setStep m, p.2 = valOf p.1 := by
  induction entries generalizing m with
  | nil => exact hm
  | cons e rest ih =>
      intro p hp
      rw [List.foldl_cons] at hp
      refine ih (setStep m e) ?_ (fun q hq => he q (List.mem_cons_of_mem _ hq)) p hp
      exact snd_eq_valOf_jsSet m e.1 e.2 hm (he e (List.mem_cons_self _ _))

theorem jsGet_eq_valOf (m : List (String × String)) (k : String)
    (hm : ∀ p ∈ m, p.2 = valOf p.1) (hk : k ∈ m.map Prod.fst) :
    jsGet m k = some (valOf k) := by
  induction m with
  | nil => simp at hk
  | cons p rest ih =>
      simp only [jsGet]
      by_cases hp : p.1 = k
      · rw [if_pos hp, hm p (List.mem_cons_self _ _), hp]
      · rw [if_neg hp]
        apply ih (fun q hq => hm q (List.mem_cons_of_mem _ hq))
        simp only [List.map_cons, List.mem_cons] at hk
        rcases hk with h | h
        · exact absurd h.symm hp
        · exact h

theorem length_foldl_setStep (entries : List (String × String)) :
    ∀ m : List (String × String),
    (m.map Prod.fst ++ entries.map Prod.fst).Nodup →
    (entries.foldl setStep m).length = m.length + entries.length := by
  induction entries with
  | nil => intro m _; simp
  | cons e rest ih =>
      intro m h
      rw [List.foldl_cons]
      have hdisj := List.disjoint_of_nodup_append h
      have hnotin : e.1 ∉ m.map Prod.fst := by
        intro hc
        exact hdisj hc (by simp)
      have hset : setStep m e = m ++ [(e.1, e.2)] :=
        jsSet_append m e.1 e.2 hnotin
      rw [hset, ih (m ++ [(e.1, e.2)])]
      · simp [Nat.add_assoc, Nat.add_comm 1 rest.length]
      · simp only [List.map_append, List.map_cons, List.map_nil]
        rw [List.append_assoc]
        simpa [← List.append_cons] using h

/-- C1 (amended): when the composite keys of all (category, token) pairs are
pairwise distinct, the Flattener's output has exactly one entry per pair, and
unconditionally every output key is the string category ++ "-" ++ token for
a (category, token) pair present in the input. -/
theorem flattenSemanticColors_size_and_keys
    (semantic : List (String × List (String × String))) :
    ((compositeKeys semantic).Nodup →
      (flattenSemanticColors semantic).length = totalPairs semantic) ∧
    ∀ k ∈ (flattenSemanticColors semantic).map Prod.fst,
      ∃ entry ∈ semantic, ∃ tokenEntry ∈ entry.2,
        k = entry.1 ++ "-" ++ tokenEntry.1 := by
  constructor
  · intro hnodup
    rw [flatten_eq_foldl_flatEntries]
    rw [compositeKeys_eq_map_fst] at hnodup
    have h := length_foldl_setStep (flatEntries semantic) []
      (by simpa using hnodup)
    simpa [length_flatEntries] using h
  · intro k hk
    rw [flatten_eq_foldl_flatEntries] at hk
    have hmem := (keys_foldl_setStep (flatEntries semantic) [] k).mp hk
    simp only [List.map_nil, List.not_mem_nil, false_or] at hmem
    rw [← compositeKeys_eq_map_fst] at hmem
    simp only [compositeKeys, List.mem_flatMap, List.mem_map] at hmem
    obtain ⟨entry, hentry, tokenEntry, htok, hkey⟩ := hmem
    exact ⟨entry, hentry, tokenEntry, htok, hkey.symm⟩

/-- Witness for C1 at the spec's concrete scenario input. -/
theorem flattenSemanticColors_size_and_keys_witness :
    (compositeKeys [("background", [("default", "#0a0a0f")])]).Nodup ∧
    (flattenSemanticColors [("background", [("default", "#0a0a0f")])]).length
      = totalPairs [("background", [("default", "#0a0a0f")])] :=
  ⟨by decide,
    (flattenSemanticColors_size_and_keys
      [("background", [("default", "#0a0a0f")])]).1 (by decide)⟩

/-- Counterexample to C1 as stated: hyphenated category names make two
distinct (category, token) pairs collide on the same composite key, so the
output has one entry for two pairs. -/
theorem flattenSemanticColors_size_counterexample :
    totalPairs [("a", [("b-c", "#111")]), ("a-b", [("c", "#222")])] = 2 ∧
    (flattenSemanticColors
      [("a", [("b-c", "#111")]), ("a-b", [("c", "#222")])]).length = 1 := by
  constructor
  · rfl
  · rfl

/-- C2: for every (category, token) pair present in the input, looking up the
composite key in the Flattener's output yields exactly the string the Variable
Reference Generator produces for segments ("color", category, token). -/
theorem flatten_roundTrip (semantic : List (String × List (String × String)))
    (entry : String × List (String × String)) (tokenEntry : String × String)
    (hentry : entry ∈ semantic) (htok : tokenEntry ∈ entry.2) :
    jsGet (flattenSemanticColors semantic) (entry.1 ++ "-" ++ tokenEntry.1)
      = some (createVar ["color", entry.1, tokenEntry.1]) := by
  rw [flatten_eq_foldl_flatEntries, createVar_color_pair]
  apply jsGet_eq_valOf
  · apply foldl_setStep_snd
    · intro p hp
      simp at hp
    · intro p hp
      simp only [flatEntries, List.mem_flatMap, List.mem_map] at hp
      obtain ⟨e, he, t, ht, rfl⟩ := hp
      exact createVar_color_pair e.1 t.1
  · rw [keys_foldl_setStep]
    right
    rw [← compositeKeys_eq_map_fst]
    simp only [compositeKeys, List.mem_flatMap, List.mem_map]
    exact ⟨entry, hentry, tokenEntry, htok, rfl⟩

/-- Witness for C2 at the spec's concrete scenario: key "background-default"
maps to the generated reference for ("color", "background", "default"). -/
theorem flatten_roundTrip_witness :
    jsGet (flattenSemanticColors [("background", [("default", "#0a0a0f")])])
        "background-default"
      = some "var(--color-background-default)" := by
  have h := flatten_roundTrip [("background", [("default", "#0a0a0f")])]
    ("background", [("default", "#0a0a0f")]) ("default", "#0a0a0f")
    (by simp) (by simp)
  simpa using h

/-- Shape of `metadata` in a theme document: id string plus optional default
boolean.
The optional boolean is an `Option Bool` (`none` = field absent). -/
structure ThemeMetadata where
  id : String
  default : Option Bool
deriving DecidableEq

/-- Shape of `primitives.motion` in a theme document. -/
structure MotionTokens where
  duration : List (String × String)
  easing : List (String × String)
deriving DecidableEq

/-- Shape of `primitives.typography` in a theme document. -/
structure TypographyTokens where
  fontFamily : List (String × String)
  fontSize : List (String × String)
  lineHeight : List (String × String)
deriving DecidableEq

/-- Shape of `primitives` in a theme document. -/
structure PrimitiveTokens where
  spacing : List (String × String)
  motion : MotionTokens
  radius : List (String × String)
  shadow : List (String × String)
  typography : TypographyTokens
deriving DecidableEq

/-- Shape of `semantic` in a theme document. -/
structure SemanticTokens where
  color : List (String × List (String × String))
deriving DecidableEq

/-- The `ThemeTokens` document shape from the source. -/
structure ThemeTokens where
  metadata : ThemeMetadata
  primitives : PrimitiveTokens
  semantic : SemanticTokens
deriving DecidableEq

/-- JS truthiness of the optional boolean `metadata.default`
(absent and `false` are falsy). -/
def truthy : Option Bool → Bool
  | some b => b
  | none => false

/-- The Default Theme Selector from the source:
`loadedTokens.find((theme) => theme.metadata.default) ?? loadedTokens[0]`.
`find` on no match and indexing an empty array both give `undefined`,
embedded as `none`. -/
def baseTheme (loadedTokens : List ThemeTokens) : Option ThemeTokens :=
  (loadedTokens.find? (fun theme => truthy theme.metadata.default)).orElse
    (fun _ => loadedTokens.head?)

/-- The Selector's `find` predicate, named for use in proofs; definitionally
the lambda inside `baseTheme`. -/
def isDefaultFlag (theme : ThemeTokens) : Bool := truthy theme.metadata.default

theorem baseTheme_eq_find (l : List ThemeTokens) :
    baseTheme l = (l.find? isDefaultFlag).orElse (fun _ => l.head?) := rfl

/-- C3: a non-empty list with exactly one default-flagged theme selects that
theme. -/
theorem baseTheme_unique_default (l : List ThemeTokens) (t : ThemeTokens)
    (ht : t ∈ l) (hd : truthy t.metadata.default = true)
    (huniq : ∀ u ∈ l, truthy u.metadata.default = true → u = t) :
    baseTheme l = some t := by
  have hfind : l.find? isDefaultFlag = some t := by
    induction l with
    | nil => cases ht
    | cons u rest ih =>
        by_cases hu : isDefaultFlag u = true
        · rw [List.find?_cons_of_pos _ hu]
          rw [huniq u (List.mem_cons_self _ _) hu]
        · rw [List.find?_cons_of_neg _ (by simpa using hu)]
          rcases List.mem_cons.mp ht with rfl | hmem
          · exact absurd hd hu
          · exact ih hmem (fun v hv => huniq v (List.mem_cons_of_mem _ hv))
  rw [baseTheme_eq_find, hfind]
  rfl

/-- Concrete sample theme used to witness the Selector theorems. -/
def sampleTheme (i : String) (d : Option Bool) : ThemeTokens where
  metadata := { id := i, default := d }
  primitives :=
    { spacing := []
      motion := { duration := [], easing := [] }
      radius := []
      shadow := []
      typography := { fontFamily := [], fontSize := [], lineHeight := [] } }
  semantic := { color := [] }

/-- Witness for C3: of the spec's two themes with "midnight" flagged default,
the Selector picks "midnight". -/
theorem baseTheme_unique_default_witness :
    baseTheme [sampleTheme "midnight" (some true), sampleTheme "horizon" none]
      = some (sampleTheme "midnight" (some true)) :=
  baseTheme_unique_default _ _ (by decide) (by decide) (by decide)

/-- C4: a non-empty list with no default-flagged theme selects the first
element, in manifest order. -/
theorem baseTheme_no_default (t : ThemeTokens) (rest : List ThemeTokens)
    (h : ∀ u ∈ t :: rest, truthy u.metadata.default = false) :
    baseTheme (t :: rest) = some t := by
  have hfind : (t :: rest).find? isDefaultFlag = none := by
    rw [List.find?_eq_none]
    intro u hu
    simp [isDefaultFlag, h u hu]
  rw [baseTheme_eq_find, hfind]
  rfl

/-- Witness for C4: the spec's missing-default scenario with themes ordered
["horizon", "midnight"] selects "horizon". -/
theorem baseTheme_no_default_witness :
    baseTheme [sampleTheme "horizon" none, sampleTheme "midnight" none]
      = some (sampleTheme "horizon" none) :=
  baseTheme_no_default _ _ (by decide)

/-- C5: on an empty loaded-themes list the Selector yields no theme value at
all (the build-time evaluation cannot proceed). -/
theorem baseTheme_empty : baseTheme [] = none := rfl

/-- C9: with several default-flagged themes, the Selector returns the first
one in list order and ignores the later ones; no error is raised. -/
theorem baseTheme_first_of_multiple (pre : List ThemeTokens) (t : ThemeTokens)
    (post : List ThemeTokens) (hd : truthy t.metadata.default = true)
    (hpre : ∀ u ∈ pre, truthy u.metadata.default = false) :
    baseTheme (pre ++ t :: post) = some t := by
  have hfind : (pre ++ t :: post).find? isDefaultFlag = some t := by
    induction pre with
    | nil => exact List.find?_cons_of_pos _ hd
    | cons u rest ih =>
        rw [List.cons_append, List.find?_cons_of_neg _
          (by simp [isDefaultFlag, hpre u (List.mem_cons_self _ _)])]
        exact ih (fun v hv => hpre v (List.mem_cons_of_mem _ hv))
  rw [baseTheme_eq_find, hfind]
  rfl

/-- Witness for C9: two defaults, the first (position 2 of 3) wins. -/
theorem baseTheme_first_of_multiple_witness :
    baseTheme [sampleTheme "a" (some false), sampleTheme "b" (some true),
        sampleTheme "c" (some true)]
      = some (sampleTheme "b" (some true)) :=
  baseTheme_first_of_multiple [sampleTheme "a" (some false)]
    (sampleTheme "b" (some true)) [sampleTheme "c" (some true)]
    (by decide) (by decide)

/-- One entry of `manifest.json`: `{ id, file, default? }`. -/
structure ManifestEntry where
  id : String
  file : String
  default : Option Bool
deriving DecidableEq

/-- The parsed manifest document: `{ themes: [...] }`. -/
structure ThemeManifest where
  themes : List ManifestEntry
deriving DecidableEq

/-- The per-entry loop body of the Loader:
`manifest.themes.map((entry) => JSON.parse(fs.readFileSync(...)))`.
Reading-and-parsing a theme file is the oracle `readTheme`; `none` is a
missing/unreadable/malformed file, which in the source throws and aborts the
whole `map`, so the embedding yields `none` for the whole list. -/
def loadedTokensOf (readTheme : String → Option ThemeTokens) :
    List ManifestEntry → Option (List ThemeTokens)
  | [] => some []
  | entry :: rest =>
      match readTheme entry.file, loadedTokensOf readTheme rest with
      | some t, some ts => some (t :: ts)
      | _, _ => none

/-- The Loader end to end: parsing `manifest.json` is the `manifestDoc`
oracle (`none` = missing/malformed manifest, which throws at
`JSON.parse(fs.readFileSync(manifestPath))`), then every listed theme file is
read and parsed. -/
def loadPipeline (manifestDoc : Option ThemeManifest)
    (readTheme : String → Option ThemeTokens) : Option (List ThemeTokens) :=
  manifestDoc.bind (fun m => loadedTokensOf readTheme m.themes)

theorem loadedTokensOf_none (readTheme : String → Option ThemeTokens)
    (entries : List ManifestEntry) (entry : ManifestEntry)
    (h : entry ∈ entries) (hfail : readTheme entry.file = none) :
    loadedTokensOf readTheme entries = none := by
  induction entries with
  | nil => cases h
  | cons e rest ih =>
      rcases List.mem_cons.mp h with rfl | hmem
      · rw [loadedTokensOf, hfail]
      · rw [loadedTokensOf, ih hmem]
        cases readTheme e.file <;> rfl

/-- C7: if the manifest is missing or malformed, or any listed theme file is
missing, unreadable or malformed, the Loader produces no theme data at all —
no partial list ever reaches later stages. -/
theorem loader_all_or_nothing (manifestDoc : Option ThemeManifest)
    (readTheme : String → Option ThemeTokens) :
    (manifestDoc = none → loadPipeline manifestDoc readTheme = none) ∧
    (∀ m, manifestDoc = some m → ∀ entry ∈ m.themes,
      readTheme entry.file = none →
        loadPipeline manifestDoc readTheme = none) := by
  constructor
  · rintro rfl
    rfl
  · rintro m rfl entry hmem hfail
    rw [loadPipeline, Option.some_bind]
    exact loadedTokensOf_none readTheme m.themes entry hmem hfail

/-- A concrete manifest entry used by the Loader witness. -/
def midnightEntry : ManifestEntry :=
  { id := "midnight", file := "midnight.json", default := some true }

/-- Witness for C7: a one-theme manifest whose theme file fails to parse
loads nothing. -/
theorem loader_all_or_nothing_witness :
    loadPipeline (some { themes := [midnightEntry] }) (fun _ => none) = none :=
  (loader_all_or_nothing (some { themes := [midnightEntry] }) (fun _ => none)).2
    { themes := [midnightEntry] } rfl midnightEntry (by simp) rfl

/-- Membership test `k in obj` of JS on an embedded object. -/
def jsHas (m : List (String × String)) (k : String) : Bool :=
  m.any (fun p => p.1 = k)

/-- The `motionDuration` scale built from the selected theme:
`Object.fromEntries(Object.keys(duration).map(token => [token,
createVar('motion', 'duration', token)]))`, then
`if (!('DEFAULT' in motionDuration)) motionDuration.DEFAULT =
createVar('motion', 'duration', 'standard')`. -/
def motionDuration (theme : ThemeTokens) : List (String × String) :=
  let base := theme.primitives.motion.duration.map
    (fun p => (p.1, createVar ["motion", "duration", p.1]))
  if jsHas base "DEFAULT" then base
  else jsSet base "DEFAULT" (createVar ["motion", "duration", "standard"])

/-- The `motionEasing` scale built from the selected theme, same shape as
`motionDuration` with segment "easing". -/
def motionEasing (theme : ThemeTokens) : List (String × String) :=
  let base := theme.primitives.motion.easing.map
    (fun p => (p.1, createVar ["motion", "easing", p.1]))
  if jsHas base "DEFAULT" then base
  else jsSet base "DEFAULT" (createVar ["motion", "easing", "standard"])

/-- The entries of `motionDuration` before the fallback step. -/
def durationBase (theme : ThemeTokens) : List (String × String) :=
  theme.primitives.motion.duration.map
    (fun p => (p.1, createVar ["motion", "duration", p.1]))

/-- The entries of `motionEasing` before the fallback step. -/
def easingBase (theme : ThemeTokens) : List (String × String) :=
  theme.primitives.motion.easing.map
    (fun p => (p.1, createVar ["motion", "easing", p.1]))

theorem map_fst_pairMap (l : List (String × String))
    (f : String × String → String) :
    (l.map (fun p => (p.1, f p))).map Prod.fst = l.map Prod.fst := by
  rw [List.map_map]
  rfl

theorem jsHas_iff (m : List (String × String)) (k : String) :
    jsHas m k = true ↔ k ∈ m.map Prod.fst := any_key_eq m k

theorem fallbackStep (base : List (String × String)) (v : String) :
    (if jsHas base "DEFAULT" then base else jsSet base "DEFAULT" v)
      = (if "DEFAULT" ∈ base.map Prod.fst then base
         else base ++ [("DEFAULT", v)]) := by
  by_cases h : "DEFAULT" ∈ base.map Prod.fst
  · rw [if_pos ((jsHas_iff base "DEFAULT").mpr h), if_pos h]
  · rw [if_neg (fun hc => h ((jsHas_iff base "DEFAULT").mp hc)), if_neg h]
    exact jsSet_append base "DEFAULT" v h

/-- C6: for every selected theme, when the key "DEFAULT" is absent from the
theme's motion duration (resp. easing) map the Emitter appends exactly one
synthesized entry DEFAULT mapped to the generated reference for segments
("motion", "duration", "standard") (resp. ("motion", "easing", "standard"));
when "DEFAULT" is present nothing is synthesized; in both branches the
entries derived from the theme's own tokens are left unchanged. -/
theorem motion_default_synthesis (theme : ThemeTokens) :
    motionDuration theme
      = (if "DEFAULT" ∈ theme.primitives.motion.duration.map Prod.fst
         then durationBase theme
         else durationBase theme
           ++ [("DEFAULT", createVar ["motion", "duration", "standard"])]) ∧
    motionEasing theme
      = (if "DEFAULT" ∈ theme.primitives.motion.easing.map Prod.fst
         then easingBase theme
         else easingBase theme
           ++ [("DEFAULT", createVar ["motion", "easing", "standard"])]) := by
  have hdurKeys : (durationBase theme).map Prod.fst
      = theme.primitives.motion.duration.map Prod.fst := by
    rw [durationBase, map_fst_pairMap]
  have heasKeys : (easingBase theme).map Prod.fst
      = theme.primitives.motion.easing.map Prod.fst := by
    rw [easingBase, map_fst_pairMap]
  constructor
  · have hrf : motionDuration theme
        = (if jsHas (durationBase theme) "DEFAULT" then durationBase theme
           else jsSet (durationBase theme) "DEFAULT"
             (createVar ["motion", "duration", "standard"])) := rfl
    rw [hrf, fallbackStep, hdurKeys]
  · have hrf : motionEasing theme
        = (if jsHas (easingBase theme) "DEFAULT" then easingBase theme
           else jsSet (easingBase theme) "DEFAULT"
             (createVar ["motion", "easing", "standard"])) := rfl
    rw [hrf, fallbackStep, heasKeys]

/-- The `User` record of `src/store/userStore.ts`. -/
structure User where
  id : String
  name : String
  email : String
deriving DecidableEq

/-- The data part of `UserState`: `user: User | null` and
`isLoading: boolean`. -/
structure UserState where
  user : Option User
  isLoading : Bool
deriving DecidableEq

/-- The store's initial state: `user: null, isLoading: false`. -/
def initialUserState : UserState := { user := none, isLoading := false }

/-- Action `setUser`: the zustand `set` merges the
partial state into the current one. -/
def setUser (u : User) (s : UserState) : UserState := { s with user := some u }

/-- Action `clearUser`: sets the user field to null. -/
def clearUser (s : UserState) : UserState := { s with user := none }

/-- Action `setLoading`: sets the isLoading field. -/
def setLoading (b : Bool) (s : UserState) : UserState :=
  { s with isLoading := b }

/-- C10: each store action touches only its own field — `setLoading` leaves
`user` unchanged, `setUser` and `clearUser` leave `isLoading` unchanged —
and after `clearUser` the `user` field is null. -/
theorem userStore_frame (s : UserState) (u : User) (b : Bool) :
    (setLoading b s).user = s.user ∧
    (setUser u s).isLoading = s.isLoading ∧
    (clearUser s).isLoading = s.isLoading ∧
    (clearUser s).user = none ∧
    (setUser u s).user = some u ∧
    (setLoading b s).isLoading = b :=
  ⟨rfl, rfl, rfl, rfl, rfl, rfl⟩

end DevWebsite
